import Mathlib

/-!
A shallow embedding of `src/RedisStore.ts` (langchain-js-redis-store).

Modelling conventions:
* A JavaScript string is modelled as its sequence of characters (`List Char`),
  so `s.startsWith(p)` is `p.isPrefixOf s`, `s.substring(n)` is `List.drop n`,
  `a + b` is `a ++ b`, and `s.length` is `List.length`.
* A `Uint8Array` / `Buffer` value is a list of byte values (`List Nat`).
* The ioredis client is external: each operation of the store is embedded as a
  pure function returning the list of backend commands it issues (its call
  trace) together with its result; backend replies are supplied as function
  arguments.  The `async` wrappers carry no other semantic content here.
* JavaScript truthiness: a string is truthy iff non-empty, a number is truthy
  iff non-zero, `null`/`undefined` are falsy, an object is always truthy.
-/

/-- A JavaScript string, modelled as its character sequence. -/
abbrev JStr := List Char

/-- The character sequence of a Lean string literal, used to write `JStr`
literals. -/
def js (s : String) : JStr := s.data

/-- JavaScript truthiness of an optional string (`undefined` and `""` are
falsy). -/
def jsStrTruthy : Option JStr → Bool
  | none => false
  | some s => !s.isEmpty

/-- JavaScript truthiness of an optional number (`null` and `0` are falsy). -/
def jsNumTruthy : Option Int → Bool
  | none => false
  | some t => t != 0

/-- One command issued to the ioredis client, recorded so that frame properties
(which backend calls an operation performs) can be stated. -/
inductive BackendCall where
  /-- `client.mget(keys)` -/
  | mget (keys : List JStr)
  /-- `pipeline.set(key, value)` or `pipeline.set(key, value, "EX", t)` -/
  | set (key : JStr) (value : List Nat) (exSeconds : Option Int)
  /-- `client.del(...keys)` -/
  | del (keys : List JStr)
  /-- `client.scan(cursor, "MATCH", pattern, "COUNT", count)` -/
  | scan (cursor : JStr) (pattern : JStr) (count : Nat)
  /-- `client.quit()` on the client handle with the given id -/
  | quit (client : Nat)
deriving DecidableEq

/-- `RedisStoreConfig` (src/RedisStore.ts lines 7-32).  A client handle is an
opaque id (`Nat`); `clientOptions` is omitted because it only feeds the
construction of a new connection, which is opaque here. -/
structure RedisStoreConfig where
  client : Option Nat := none
  redisUrl : Option JStr := none
  ttl : Option Int := none
  /-- `namespace` in the source; renamed because `namespace` is a Lean
  keyword. -/
  ns : JStr := []

/-- The state of a constructed `RedisStore` (fields of the class,
src/RedisStore.ts lines 45-47). -/
structure RedisStore where
  client : Nat
  ttl : Option Int
  /-- `namespace` in the source. -/
  ns : JStr
deriving DecidableEq

/-- The constructor (src/RedisStore.ts lines 53-70): throws when neither a
truthy `client` nor a truthy `redisUrl` is given; otherwise keeps the supplied
client, or the fresh one built from the url (`client || new Redis(...)`). -/
def RedisStore.construct (config : RedisStoreConfig) (freshClient : Nat) :
    Except JStr RedisStore :=
  if config.client.isSome = false ∧ jsStrTruthy config.redisUrl = false then
    .error (js "Either a client or redisUrl must be provided")
  else
    .ok { client := config.client.getD freshClient
          ttl := config.ttl
          ns := config.ns }

/-- `_prefixKey` (src/RedisStore.ts lines 78-80):
`this.namespace ? namespace + ":" + key : key`. -/
def RedisStore._prefixKey (s : RedisStore) (key : JStr) : JStr :=
  if s.ns ≠ [] then s.ns ++ js ":" ++ key else key

/-- `Buffer.from(value, "binary")` (src/RedisStore.ts line 93): each character
of the reply string becomes its low byte. -/
def bufferFromBinary (value : JStr) : List Nat :=
  value.map (fun c => c.toNat % 256)

/-- `mget` (src/RedisStore.ts lines 87-95).  `clientMget` is the backend's
reply to `client.mget`: one optional binary string per physical key.  Returns
the backend calls issued and the result array; a `null` reply entry becomes
`none` (absent), any string reply becomes a present buffer.  The result type
has no error outcome: absent keys are values, not failures. -/
def RedisStore.mget (s : RedisStore) (clientMget : List JStr → List (Option JStr))
    (keys : List JStr) : List BackendCall × List (Option (List Nat)) :=
  let prefixedKeys := keys.map s._prefixKey
  let response := clientMget prefixedKeys
  ([BackendCall.mget prefixedKeys],
    response.map (fun value =>
      match value with
      | none => none
      | some v => some (bufferFromBinary v)))

/-- `mset` (src/RedisStore.ts lines 102-120): returns immediately on empty
input; otherwise issues one pipelined `SET` per pair, with `"EX" ttl` exactly
when `this.ttl` is truthy.  `Buffer.from(value)` on a byte array is the
identity on its bytes. -/
def RedisStore.mset (s : RedisStore) (keyValuePairs : List (JStr × List Nat)) :
    List BackendCall :=
  if keyValuePairs.length = 0 then []
  else
    keyValuePairs.map (fun kv =>
      let prefixedKey := s._prefixKey kv.1
      if jsNumTruthy s.ttl then
        BackendCall.set prefixedKey kv.2 s.ttl
      else
        BackendCall.set prefixedKey kv.2 none)

/-- `mdelete` (src/RedisStore.ts lines 127-132): returns immediately on empty
input; otherwise one `DEL` with all prefixed keys. -/
def RedisStore.mdelete (s : RedisStore) (keys : List JStr) : List BackendCall :=
  if keys.length = 0 then []
  else [BackendCall.del (keys.map s._prefixKey)]

/-- The match pattern computed by `yieldKeys` (src/RedisStore.ts lines
140-145): `fullPrefix + "*"`, replaced by `fullPrefix + prefix + "*"` when the
optional prefix argument is truthy. -/
def RedisStore.scanPattern (s : RedisStore) (pre : Option JStr) : JStr :=
  let fullPref := if s.ns ≠ [] then s.ns ++ js ":" else []
  if jsStrTruthy pre then fullPref ++ pre.getD [] ++ js "*"
  else fullPref ++ js "*"

/-- The per-key transform of `yieldKeys` (src/RedisStore.ts lines 160-166):
strip `namespace + ":"` when the namespace is set and the key starts with it,
else yield the key unmodified. -/
def RedisStore.stripForYield (s : RedisStore) (key : JStr) : JStr :=
  if s.ns ≠ [] ∧ (s.ns ++ js ":").isPrefixOf key then
    key.drop (s.ns.length + 1)
  else key

/-- The do/while cursor loop of `yieldKeys` (src/RedisStore.ts lines 147-168),
with explicit fuel since the backend's cursor chain need not terminate.
`clientScan` maps a cursor to the backend's `(nextCursor, keys)` reply for the
fixed pattern; the result is the backend calls made and the raw keys of every
page, or `none` when the fuel runs out before the terminal cursor `"0"`. -/
def scanLoop (clientScan : JStr → JStr × List JStr) (pattern : JStr) :
    Nat → JStr → Option (List BackendCall × List JStr)
  | 0, _ => none
  | fuel + 1, cursor =>
    let step := clientScan cursor
    let call := BackendCall.scan cursor pattern 100
    if step.1 = js "0" then some ([call], step.2)
    else
      match scanLoop clientScan pattern fuel step.1 with
      | none => none
      | some rest => some (call :: rest.1, step.2 ++ rest.2)

/-- `yieldKeys` (src/RedisStore.ts lines 139-169): computes the pattern,
drives the cursor loop from the initial cursor `"0"` with page size 100, and
yields every returned key through `stripForYield`, in order. -/
def RedisStore.yieldKeys (s : RedisStore)
    (clientScan : JStr → JStr → Nat → JStr × List JStr)
    (pre : Option JStr) (fuel : Nat) :
    Option (List BackendCall × List JStr) :=
  let pattern := s.scanPattern pre
  (scanLoop (fun c => clientScan c pattern 100) pattern fuel (js "0")).map
    (fun r => (r.1, r.2.map s.stripForYield))

/-- `close` (src/RedisStore.ts lines 175-177): unconditionally calls
`this.client.quit()`, whichever way the client was obtained. -/
def RedisStore.close (s : RedisStore) : List BackendCall :=
  [BackendCall.quit s.client]

/-- Modelled from the spec: the backend's key-value state, mapping a physical
key to its stored bytes and optional expiry.  The Backend Client is external
to this repository (spec section 6, "not implemented by this core"); only as
much of it as the claims need is modelled here, following the spec's words. -/
def BackendState := JStr → Option (List Nat × Option Int)

/-- A backend holding no keys. -/
def emptyBackend : BackendState := fun _ => none

/-- Modelled from the spec: a `batchedSet` entry stores the value and replaces
any prior expiry with the given one (standard unconditional SET semantics),
`batchedDelete` removes its keys; reads, scans and quit leave the state
unchanged. -/
def applyCall (st : BackendState) : BackendCall → BackendState
  | .set key value ex => fun k => if k = key then some (value, ex) else st k
  | .del keys => fun k => if keys.contains k then none else st k
  | _ => st

/-- Apply a trace of backend calls to a backend state, in order. -/
def applyCalls (st : BackendState) (calls : List BackendCall) : BackendState :=
  calls.foldl applyCall st

/-- Modelled from the spec: `batchedGet(physicalKeys) → sequence of optional
bytes, same order/length`, reading a backend state; a stored byte sequence
comes back as the binary string whose characters are its bytes. -/
def stateMget (st : BackendState) : List JStr → List (Option JStr) :=
  fun physicalKeys =>
    physicalKeys.map (fun k => (st k).map (fun v => v.1.map Char.ofNat))

/-- Modelled from the spec: `scanPage(cursor, matchPattern, pageSizeHint)`
over a finite list of physical keys.  The store only ever produces a pattern
of the shape `literal ++ "*"`; a key matches when the literal part (the
pattern without its final wildcard) is a prefix of the key.  This model
returns every matching key in a single page together with the terminal
cursor `"0"`. -/
def stateScanOnce (physKeys : List JStr) (cursor : JStr) (pattern : JStr)
    (_count : Nat) : JStr × List JStr :=
  (js "0",
    if cursor = js "0" then physKeys.filter (fun k => pattern.dropLast.isPrefixOf k)
    else [])

/-- The backend's cursor chain: `cursorFrom clientScan c n` is the cursor in
hand after `n` scan calls starting from cursor `c`, each call receiving the
cursor returned by the previous one. -/
def cursorFrom (clientScan : JStr → JStr × List JStr) (c : JStr) : Nat → JStr
  | 0 => c
  | n + 1 => (clientScan (cursorFrom clientScan c n)).1

/-- The backend calls a terminating run of the scan loop makes: one `SCAN` per
cursor of the chain, `m + 1` calls in all starting from cursor `c`. -/
def callsFor (cs : JStr → JStr × List JStr) (pattern : JStr) (c : JStr) :
    Nat → List BackendCall
  | 0 => [BackendCall.scan c pattern 100]
  | m + 1 => BackendCall.scan c pattern 100 :: callsFor cs pattern (cs c).1 m

/-- The concatenation, in order, of the key pages returned along the cursor
chain of length `m + 1` starting from cursor `c`. -/
def pagesConcat (cs : JStr → JStr × List JStr) (c : JStr) : Nat → List JStr
  | 0 => (cs c).2
  | m + 1 => (cs c).2 ++ pagesConcat cs (cs c).1 m

/-! ## Helper lemmas (shared, not claim theorems) -/

/-- Stripping the namespace from a key of the form `ns ++ ":" ++ rest`
recovers `rest`, for any non-empty namespace. -/
theorem stripForYield_append (s : RedisStore) (rest : JStr) (hns : s.ns ≠ []) :
    s.stripForYield (s.ns ++ js ":" ++ rest) = rest := by
  have hlen : (s.ns ++ js ":").length = s.ns.length + 1 := by simp [js]
  have hpref : (s.ns ++ js ":").isPrefixOf (s.ns ++ js ":" ++ rest) = true := by
    rw [List.isPrefixOf_iff_prefix]
    exact ⟨rest, rfl⟩
  rw [RedisStore.stripForYield, if_pos ⟨hns, hpref⟩, ← hlen, List.drop_left]

/-- Splitting at the first separator: two colon-free strings followed by a
colon and anything agree only when both parts agree. -/
theorem colon_sep_inj {a b u v : JStr} (ha : ':' ∉ a) (hb : ':' ∉ b)
    (h : a ++ ':' :: u = b ++ ':' :: v) : a = b ∧ u = v := by
  induction a generalizing b with
  | nil =>
    cases b with
    | nil => simpa using h
    | cons d b2 =>
      simp only [List.nil_append, List.cons_append, List.cons.injEq] at h
      exact absurd (h.1 ▸ List.mem_cons_self d b2) hb
  | cons c a2 ih =>
    cases b with
    | nil =>
      simp only [List.nil_append, List.cons_append, List.cons.injEq] at h
      exact absurd (h.1 ▸ List.mem_cons_self c a2) ha
    | cons d b2 =>
      simp only [List.cons_append, List.cons.injEq] at h
      have ha2 : ':' ∉ a2 := fun hm => ha (List.mem_cons_of_mem _ hm)
      have hb2 : ':' ∉ b2 := fun hm => hb (List.mem_cons_of_mem _ hm)
      obtain ⟨he, hu⟩ := ih ha2 hb2 h.2
      exact ⟨by rw [h.1, he], hu⟩

/-- Physical keys of two stores with distinct, non-empty, colon-free
namespaces never coincide. -/
theorem prefixKey_disjoint (s1 s2 : RedisStore)
    (h1 : s1.ns ≠ []) (h2 : s2.ns ≠ [])
    (hc1 : ':' ∉ s1.ns) (hc2 : ':' ∉ s2.ns) (hne : s1.ns ≠ s2.ns)
    (a b : JStr) : s1._prefixKey a ≠ s2._prefixKey b := by
  rw [RedisStore._prefixKey, if_pos h1, RedisStore._prefixKey, if_pos h2]
  intro h
  have hj : js ":" = [':'] := rfl
  rw [hj, List.append_assoc, List.append_assoc, List.singleton_append,
    List.singleton_append] at h
  exact hne (colon_sep_inj hc1 hc2 h).1

/-- Every call `mset` issues is a SET of the prefixed key and value of one of
the input pairs. -/
theorem mset_shape (s : RedisStore) (pairs : List (JStr × List Nat)) :
    ∀ c ∈ s.mset pairs,
      ∃ kv, kv ∈ pairs ∧ ∃ e, c = BackendCall.set (s._prefixKey kv.1) kv.2 e := by
  intro c hc
  rw [RedisStore.mset] at hc
  by_cases hlen : pairs.length = 0
  · rw [if_pos hlen] at hc
    cases hc
  · rw [if_neg hlen] at hc
    obtain ⟨kv, hkv, rfl⟩ := List.mem_map.mp hc
    by_cases ht : jsNumTruthy s.ttl
    · exact ⟨kv, hkv, s.ttl, by simp [ht]⟩
    · exact ⟨kv, hkv, none, by simp [ht]⟩

/-- A trace consisting only of SETs of keys other than `k` leaves the backend
state at `k` unchanged. -/
theorem applyCalls_of_ne (calls : List BackendCall) (st : BackendState) (k : JStr)
    (h : ∀ c ∈ calls, ∃ key v e, c = BackendCall.set key v e ∧ key ≠ k) :
    applyCalls st calls k = st k := by
  induction calls generalizing st with
  | nil => rfl
  | cons c rest ih =>
    obtain ⟨key, v, e, rfl, hkey⟩ := h c (List.mem_cons_self _ _)
    have hstep : applyCall st (BackendCall.set key v e) k = st k := by
      show (if k = key then some (v, e) else st k) = st k
      rw [if_neg (Ne.symm hkey)]
    calc applyCalls st (BackendCall.set key v e :: rest) k
        = applyCalls (applyCall st (BackendCall.set key v e)) rest k := rfl
      _ = applyCall st (BackendCall.set key v e) k :=
          ih (applyCall st (BackendCall.set key v e))
            (fun c hc => h c (List.mem_cons_of_mem _ hc))
      _ = st k := hstep

/-- After a trace consisting only of expiry-free SETs, a key that is SET by it
holds some value with no expiry, whatever expiry the state had before. -/
theorem applyCalls_setNone_mem (calls : List BackendCall)
    (hall : ∀ c ∈ calls, ∃ key v, c = BackendCall.set key v none) (k : JStr)
    (hk : ∃ key v, BackendCall.set key v none ∈ calls ∧ key = k) :
    ∀ st, ∃ v, applyCalls st calls k = some (v, none) := by
  induction calls with
  | nil =>
    obtain ⟨_, _, hmem, _⟩ := hk
    cases hmem
  | cons c rest ih =>
    intro st
    by_cases hrest : ∃ key v, BackendCall.set key v none ∈ rest ∧ key = k
    · exact ih (fun c hc => hall c (List.mem_cons_of_mem _ hc)) hrest (applyCall st c)
    · obtain ⟨key, v, hmem, hkey⟩ := hk
      rcases List.mem_cons.mp hmem with hc | hc
      · have hrestne : ∀ c ∈ rest, ∃ key2 v2 e2,
            c = BackendCall.set key2 v2 e2 ∧ key2 ≠ k := by
          intro c2 hc2
          obtain ⟨key2, v2, rfl⟩ := hall c2 (List.mem_cons_of_mem _ hc2)
          exact ⟨key2, v2, none, rfl, fun he => hrest ⟨key2, v2, hc2, he⟩⟩
        refine ⟨v, ?_⟩
        calc applyCalls st (c :: rest) k
            = applyCalls (applyCall st c) rest k := rfl
          _ = applyCall st c k := applyCalls_of_ne rest _ k hrestne
          _ = some (v, none) := by
              rw [← hc, hkey]
              show (if k = k then some (v, none) else st k) = some (v, none)
              rw [if_pos rfl]
      · exact absurd ⟨key, v, hc, hkey⟩ hrest

/-! ## Claim theorems -/

/-- C1: for every non-empty namespace and logical key not containing the
separator `:`, translating the key to its physical form with `_prefixKey` and
stripping the namespace back off as `yieldKeys` does yields the key again. -/
theorem yield_roundTrip (s : RedisStore) (key : JStr)
    (hns : s.ns ≠ []) (hkey : ':' ∉ key) :
    s.stripForYield (s._prefixKey key) = key := by
  rw [RedisStore._prefixKey, if_pos hns]
  exact stripForYield_append s key hns

/-- Witness for C1 at namespace `"n"` and key `"ab"`. -/
theorem yield_roundTrip_witness :
    (js "n" ≠ [] ∧ ':' ∉ js "ab") ∧
    RedisStore.stripForYield { client := 0, ttl := none, ns := js "n" }
      (RedisStore._prefixKey { client := 0, ttl := none, ns := js "n" } (js "ab")) =
      js "ab" :=
  ⟨by decide,
    yield_roundTrip { client := 0, ttl := none, ns := js "n" } (js "ab")
      (by decide) (by decide)⟩

/-- C3 counterexample: a store built from a caller-supplied client handle
(id 7) nevertheless issues `quit` on exactly that borrowed handle when closed;
`close` performs a backend call rather than none. -/
theorem close_borrowed_counterexample :
    RedisStore.construct { client := some 7 } 0 =
      Except.ok { client := 7, ttl := none, ns := [] } ∧
    RedisStore.close { client := 7, ttl := none, ns := [] } = [BackendCall.quit 7] ∧
    RedisStore.close { client := 7, ttl := none, ns := [] } ≠ [] :=
  ⟨rfl, rfl, by decide⟩

/-- C3 amended: `close()` always quits the underlying client handle, whether
it was caller-supplied or created from connection parameters; no ownership
flag exists. -/
theorem close_always_quits (config : RedisStoreConfig) (c freshClient : Nat)
    (s : RedisStore) (hc : config.client = some c)
    (hs : RedisStore.construct config freshClient = Except.ok s) :
    s.client = c ∧ s.close = [BackendCall.quit c] := by
  simp only [RedisStore.construct, hc] at hs
  simp only [Option.isSome_some, Bool.true_eq_false, false_and, if_false,
    Option.getD_some, Except.ok.injEq] at hs
  subst hs
  exact ⟨rfl, rfl⟩

/-- Witness for C3's amended theorem at a borrowed handle with id 7. -/
theorem close_always_quits_witness :
    ({ client := some 7 } : RedisStoreConfig).client = some 7 ∧
    RedisStore.construct { client := some 7 } 0 =
      Except.ok { client := 7, ttl := none, ns := [] } ∧
    RedisStore.close { client := 7, ttl := none, ns := [] } = [BackendCall.quit 7] :=
  ⟨rfl, rfl,
    (close_always_quits { client := some 7 } 7 0
      { client := 7, ttl := none, ns := [] } rfl rfl).2⟩

/-- C7: `mset` and `mdelete` on the empty input issue no backend call and
leave any backend state unchanged. -/
theorem emptyBatch_noBackendCalls (s : RedisStore) (st : BackendState) :
    s.mset [] = [] ∧ s.mdelete [] = [] ∧
    applyCalls st (s.mset []) = st ∧ applyCalls st (s.mdelete []) = st :=
  ⟨rfl, rfl, rfl, rfl⟩

/-- C10: `mget` on the empty key list does not short-circuit: it still issues
exactly one backend MGET (with the empty physical-key list), in contrast to
`mset` and `mdelete`, which issue no call on empty input. -/
theorem mget_empty_oneCall (s : RedisStore)
    (clientMget : List JStr → List (Option JStr)) :
    (s.mget clientMget []).1 = [BackendCall.mget []] ∧
    ((s.mget clientMget []).1).length = 1 ∧
    s.mset [] = [] ∧ s.mdelete [] = [] :=
  ⟨rfl, rfl, rfl, rfl⟩

/-- C4: in the `mget` result, a backend miss (`null` reply) maps to an absent
result at the same position, a present-but-empty reply maps to a present empty
value at the same position, and the two stay distinguishable; `mget` has no
error outcome, so absent keys never raise. -/
theorem mget_absent_vs_empty (s : RedisStore)
    (clientMget : List JStr → List (Option JStr)) (keys : List JStr) (i : Nat) :
    ((clientMget (keys.map s._prefixKey))[i]? = some none →
      ((s.mget clientMget keys).2)[i]? = some none) ∧
    ((clientMget (keys.map s._prefixKey))[i]? = some (some []) →
      ((s.mget clientMget keys).2)[i]? = some (some [])) ∧
    (some ([] : List Nat) ≠ (none : Option (List Nat))) := by
  refine ⟨?_, ?_, by simp⟩ <;> intro h <;>
    simp only [RedisStore.mget, List.getElem?_map, h, Option.map_some] <;> rfl

/-- Witness for C4: one missing key and one empty-valued key. -/
theorem mget_absent_vs_empty_witness :
    ((RedisStore.mget { client := 0, ttl := none, ns := [] }
      (fun _ => [none, some []]) [js "k1", js "k2"]).2)[0]? = some none ∧
    ((RedisStore.mget { client := 0, ttl := none, ns := [] }
      (fun _ => [none, some []]) [js "k1", js "k2"]).2)[1]? = some (some []) :=
  ⟨(mget_absent_vs_empty { client := 0, ttl := none, ns := [] }
      (fun _ => [none, some []]) [js "k1", js "k2"] 0).1 (by decide),
   (mget_absent_vs_empty { client := 0, ttl := none, ns := [] }
      (fun _ => [none, some []]) [js "k1", js "k2"] 1).2.1 (by decide)⟩

/-- C5: when the backend's MGET replies entrywise (same order and length as
its physical-key argument, each entry the lookup of that key), the `mget`
result has the length of the input and its `i`-th entry is the decoded lookup
of the `i`-th input key. -/
theorem mget_order_preserved (s : RedisStore)
    (clientMget : List JStr → List (Option JStr))
    (backendLookup : JStr → Option JStr)
    (hb : ∀ ks, clientMget ks = ks.map backendLookup) (keys : List JStr) :
    ((s.mget clientMget keys).2).length = keys.length ∧
    ∀ i (h : i < keys.length),
      ((s.mget clientMget keys).2)[i]? =
        some (Option.map bufferFromBinary (backendLookup (s._prefixKey keys[i]))) := by
  constructor
  · simp [RedisStore.mget, hb]
  · intro i h
    simp only [RedisStore.mget, hb]
    cases h2 : backendLookup (s._prefixKey keys[i]) <;>
      simp [List.getElem?_map, List.getElem?_eq_getElem h, h2]

/-- Witness for C5 with an entrywise backend over two keys. -/
theorem mget_order_preserved_witness :
    ((RedisStore.mget { client := 0, ttl := none, ns := js "n" }
      (fun ks => ks.map (fun k => some k)) [js "a", js "b"]).2).length = 2 :=
  Eq.trans
    ((mget_order_preserved { client := 0, ttl := none, ns := js "n" }
      (fun ks => ks.map (fun k => some k)) (fun k => some k)
      (fun _ => rfl) [js "a", js "b"]).1)
    (by decide)

/-- C6: on a non-empty batch, `mset` writes every pair's prefixed key: each
with `EX` equal to the configured positive expiry when one is configured, and
each with no expiry argument when none is configured — in which case applying
the writes to any backend state leaves each written key with no expiry
(unconditional SET clears a prior expiry on overwrite). -/
theorem mset_uniform_expiry (s : RedisStore) (pairs : List (JStr × List Nat))
    (hne : pairs ≠ []) :
    (∀ t, s.ttl = some t → 0 < t →
      s.mset pairs =
        pairs.map (fun kv => BackendCall.set (s._prefixKey kv.1) kv.2 (some t))) ∧
    (s.ttl = none →
      s.mset pairs =
        pairs.map (fun kv => BackendCall.set (s._prefixKey kv.1) kv.2 none) ∧
      ∀ (st : BackendState) (kv : JStr × List Nat), kv ∈ pairs →
        ∃ v, applyCalls st (s.mset pairs) (s._prefixKey kv.1) = some (v, none)) := by
  have hlen : ¬ pairs.length = 0 := fun h0 => hne (List.length_eq_zero.mp h0)
  constructor
  · intro t ht hpos
    have htne : t ≠ 0 := by omega
    have htr : jsNumTruthy (some t) = true := by
      simp [jsNumTruthy, bne_iff_ne, htne]
    rw [RedisStore.mset, if_neg hlen]
    exact List.map_congr_left (fun kv _ => by simp [ht, htr])
  · intro ht
    have htr : jsNumTruthy s.ttl = false := by rw [ht]; rfl
    have hmap : s.mset pairs =
        pairs.map (fun kv => BackendCall.set (s._prefixKey kv.1) kv.2 none) := by
      rw [RedisStore.mset, if_neg hlen]
      exact List.map_congr_left (fun kv _ => by simp [htr])
    refine ⟨hmap, fun st kv hkv => ?_⟩
    refine applyCalls_setNone_mem (s.mset pairs) ?_ (s._prefixKey kv.1) ?_ st
    · intro c hc
      rw [hmap] at hc
      obtain ⟨kv2, _, rfl⟩ := List.mem_map.mp hc
      exact ⟨s._prefixKey kv2.1, kv2.2, rfl⟩
    · exact ⟨s._prefixKey kv.1, kv.2, by
        rw [hmap]; exact List.mem_map.mpr ⟨kv, hkv, rfl⟩, rfl⟩

/-- Witness for C6: a one-pair batch under expiry 5 and under no expiry. -/
theorem mset_uniform_expiry_witness :
    RedisStore.mset { client := 0, ttl := some 5, ns := js "n" } [(js "k", [1])] =
      [BackendCall.set (js "n:k") [1] (some 5)] ∧
    RedisStore.mset { client := 0, ttl := none, ns := js "n" } [(js "k", [1])] =
      [BackendCall.set (js "n:k") [1] none] :=
  ⟨Eq.trans
      ((mset_uniform_expiry { client := 0, ttl := some 5, ns := js "n" }
        [(js "k", [1])] (by decide)).1 5 rfl (by decide))
      (by decide),
   Eq.trans
      ((mset_uniform_expiry { client := 0, ttl := none, ns := js "n" }
        [(js "k", [1])] (by decide)).2 rfl).1
      (by decide)⟩

/-- C8: the scan pattern is namespace-prefix ++ (prefix or empty) ++ "*"; a
terminating run of the cursor loop makes `yieldKeys` yield every returned raw
key, in order and none dropped: stripped of `namespace:` where the namespace
is set and the key carries it, unmodified otherwise. -/
theorem scanKeys_pattern_and_yield (s : RedisStore)
    (clientScan : JStr → JStr → Nat → JStr × List JStr)
    (pre : Option JStr) (fuel : Nat) (calls : List BackendCall) (raws : List JStr)
    (h : scanLoop (fun c => clientScan c (s.scanPattern pre) 100) (s.scanPattern pre)
      fuel (js "0") = some (calls, raws)) :
    s.scanPattern pre =
      (if s.ns ≠ [] then s.ns ++ js ":" else []) ++ pre.getD [] ++ js "*" ∧
    s.yieldKeys clientScan pre fuel = some (calls, raws.map s.stripForYield) ∧
    (raws.map s.stripForYield).length = raws.length ∧
    ∀ k ∈ raws,
      (∀ rest, s.ns ≠ [] → k = s.ns ++ js ":" ++ rest → s.stripForYield k = rest) ∧
      (¬ (s.ns ≠ [] ∧ (s.ns ++ js ":").isPrefixOf k = true) → s.stripForYield k = k) := by
  refine ⟨?_, ?_, List.length_map _ _, ?_⟩
  · rw [RedisStore.scanPattern]
    cases pre with
    | none => simp [jsStrTruthy]
    | some p =>
      cases p with
      | nil => simp [jsStrTruthy]
      | cons c cs => simp [jsStrTruthy]
  · rw [RedisStore.yieldKeys, h, Option.map_some']
  · intro k _
    constructor
    · intro rest hns hk
      rw [hk]
      exact stripForYield_append s rest hns
    · intro hnot
      rw [RedisStore.stripForYield, if_neg hnot]

/-- Witness for C8: one page holding a namespaced and a foreign key. -/
theorem scanKeys_pattern_and_yield_witness :
    RedisStore.yieldKeys { client := 0, ttl := none, ns := js "n" }
      (fun _ _ _ => (js "0", [js "n:a", js "b"])) none 1 =
      some ([BackendCall.scan (js "0") (js "n:*") 100], [js "a", js "b"]) :=
  Eq.trans
    ((scanKeys_pattern_and_yield { client := 0, ttl := none, ns := js "n" }
      (fun _ _ _ => (js "0", [js "n:a", js "b"])) none 1
      [BackendCall.scan (js "0") (js "n:*") 100] [js "n:a", js "b"]
      (by decide)).2.1)
    (by decide)

/-- Shifting the cursor chain by one call. -/
theorem cursorFrom_shift (cs : JStr → JStr × List JStr) (c : JStr) :
    ∀ n, cursorFrom cs c (n + 1) = cursorFrom cs (cs c).1 n := by
  intro n
  induction n with
  | zero => rfl
  | succ m ih => rw [cursorFrom, ih, cursorFrom]

/-- The calls of a terminating scan run are one `SCAN` per cursor of the
chain, in chain order. -/
theorem callsFor_eq_range (cs : JStr → JStr × List JStr) (pattern : JStr) :
    ∀ (m : Nat) (c : JStr),
      callsFor cs pattern c m =
        (List.range (m + 1)).map
          (fun i => BackendCall.scan (cursorFrom cs c i) pattern 100) := by
  intro m
  induction m with
  | zero => intro c; rfl
  | succ m2 ih =>
    intro c
    rw [callsFor, ih (cs c).1]
    conv_rhs => rw [List.range_succ_eq_map, List.map_cons, List.map_map]
    refine congrArg₂ List.cons rfl ?_
    refine List.map_congr_left (fun i _ => ?_)
    show BackendCall.scan (cursorFrom cs (cs c).1 i) pattern 100 =
      BackendCall.scan (cursorFrom cs c (i + 1)) pattern 100
    rw [cursorFrom_shift]

/-- If the backend's cursor chain from `c` reaches the terminal cursor after
at most `n + 1` calls and the fuel exceeds `n`, the scan loop terminates: it
makes one call per cursor up to the first terminal reply and returns the
concatenation of the returned pages. -/
theorem scanLoop_reaches (cs : JStr → JStr × List JStr) (pattern : JStr) :
    ∀ (n : Nat) (c : JStr) (fuel : Nat), n < fuel →
      cursorFrom cs c (n + 1) = js "0" →
      ∃ m, m ≤ n ∧
        scanLoop cs pattern fuel c = some (callsFor cs pattern c m, pagesConcat cs c m) ∧
        (∀ i, 1 ≤ i → i ≤ m → cursorFrom cs c i ≠ js "0") ∧
        cursorFrom cs c (m + 1) = js "0" := by
  intro n
  induction n with
  | zero =>
    intro c fuel hfuel hterm
    obtain ⟨f, rfl⟩ : ∃ f, fuel = f + 1 := ⟨fuel - 1, by omega⟩
    have h0 : (cs c).1 = js "0" := hterm
    refine ⟨0, le_refl 0, ?_, by omega, hterm⟩
    rw [scanLoop]
    simp only [h0, if_pos rfl]
    rfl
  | succ n2 ih =>
    intro c fuel hfuel hterm
    obtain ⟨f, rfl⟩ : ∃ f, fuel = f + 1 := ⟨fuel - 1, by omega⟩
    by_cases h0 : (cs c).1 = js "0"
    · refine ⟨0, Nat.zero_le _, ?_, by omega, h0⟩
      rw [scanLoop]
      simp only [h0, if_pos rfl]
      rfl
    · have hshift : cursorFrom cs (cs c).1 (n2 + 1) = js "0" := by
        rw [← cursorFrom_shift]
        exact hterm
      obtain ⟨m2, hm2, heq, hint, hfin⟩ :=
        ih (cs c).1 f (by omega) hshift
      refine ⟨m2 + 1, by omega, ?_, ?_, ?_⟩
      · rw [scanLoop]
        simp only [h0, if_neg h0, heq]
        rfl
      · intro i h1 hi
        match i, h1 with
        | 1, _ => simpa [cursorFrom] using h0
        | j + 2, _ =>
          rw [cursorFrom_shift]
          exact hint (j + 1) (by omega) (by omega)
      · rw [cursorFrom_shift]
        exact hfin

/-- C9: whenever the backend's cursor chain from the initial cursor `"0"`
reaches the terminal cursor `"0"` within the fuel, `scanKeys` terminates with
a finite yield; it makes exactly one SCAN per cursor of the chain, starting
from `"0"` and passing each returned cursor to the next request, and stops
with the first call whose reply is the terminal cursor. -/
theorem scanKeys_cursor_termination (s : RedisStore)
    (clientScan : JStr → JStr → Nat → JStr × List JStr) (pre : Option JStr)
    (n fuel : Nat) (hfuel : n < fuel)
    (hterm : cursorFrom (fun c => clientScan c (s.scanPattern pre) 100)
      (js "0") (n + 1) = js "0") :
    ∃ m, m ≤ n ∧
      s.yieldKeys clientScan pre fuel =
        some ((List.range (m + 1)).map (fun i =>
                BackendCall.scan
                  (cursorFrom (fun c => clientScan c (s.scanPattern pre) 100) (js "0") i)
                  (s.scanPattern pre) 100),
              (pagesConcat (fun c => clientScan c (s.scanPattern pre) 100)
                (js "0") m).map s.stripForYield) ∧
      (∀ i, 1 ≤ i → i ≤ m →
        cursorFrom (fun c => clientScan c (s.scanPattern pre) 100) (js "0") i ≠ js "0") ∧
      cursorFrom (fun c => clientScan c (s.scanPattern pre) 100) (js "0") (m + 1) =
        js "0" := by
  obtain ⟨m, hm, heq, hint, hfin⟩ :=
    scanLoop_reaches (fun c => clientScan c (s.scanPattern pre) 100)
      (s.scanPattern pre) n (js "0") fuel hfuel hterm
  refine ⟨m, hm, ?_, hint, hfin⟩
  simp only [RedisStore.yieldKeys]
  rw [heq, Option.map_some', ← callsFor_eq_range]

/-- Witness for C9: a two-page backend whose cursor chain is
`"0" → "1" → "0"`. -/
theorem scanKeys_cursor_termination_witness :
    RedisStore.yieldKeys { client := 0, ttl := none, ns := [] }
      (fun c _ _ => if c = js "0" then (js "1", [js "a"]) else (js "0", [js "b"]))
      none 2 =
      some ([BackendCall.scan (js "0") (js "*") 100,
             BackendCall.scan (js "1") (js "*") 100],
            [js "a", js "b"]) := by
  obtain ⟨m, hm, heq, hint, hfin⟩ :=
    scanKeys_cursor_termination { client := 0, ttl := none, ns := [] }
      (fun c _ _ => if c = js "0" then (js "1", [js "a"]) else (js "0", [js "b"]))
      none 1 2 (by decide) (by decide)
  interval_cases m
  · exact absurd hfin (by decide)
  · exact heq.trans (by decide)

/-- The literal part of the computed scan pattern (the pattern without its
trailing wildcard) extends the namespace prefix, whenever a namespace is
configured. -/
theorem scanPattern_dropLast (s : RedisStore) (pre : Option JStr) (hns : s.ns ≠ []) :
    ∃ mid, (s.scanPattern pre).dropLast = s.ns ++ js ":" ++ mid := by
  have hstar : js "*" = ['*'] := rfl
  rw [RedisStore.scanPattern]
  by_cases ht : jsStrTruthy pre
  · refine ⟨pre.getD [], ?_⟩
    rw [if_pos ht, if_pos hns, hstar]
    simp
  · refine ⟨[], ?_⟩
    rw [if_neg ht, if_pos hns, hstar]
    simp

/-- C2 amended: two stores over the same backend whose namespaces are
distinct, non-empty and free of the separator `:` never observe each other's
keys: after one store's `mset`, the other's `mget` returns absent at every
position for every key sequence, and the other's `scanKeys` (over a backend
page holding exactly the written physical keys) yields nothing. -/
theorem namespace_isolation (s1 s2 : RedisStore)
    (h1 : s1.ns ≠ []) (h2 : s2.ns ≠ [])
    (hc1 : ':' ∉ s1.ns) (hc2 : ':' ∉ s2.ns) (hne : s1.ns ≠ s2.ns)
    (pairs : List (JStr × List Nat)) (keys : List JStr)
    (pre : Option JStr) (fuel : Nat) :
    (s2.mget (stateMget (applyCalls emptyBackend (s1.mset pairs))) keys).2 =
      keys.map (fun _ => none) ∧
    (∀ calls yielded,
      s2.yieldKeys (stateScanOnce (pairs.map (fun kv => s1._prefixKey kv.1)))
        pre fuel = some (calls, yielded) → yielded = []) := by
  have hdisj : ∀ a b, s1._prefixKey a ≠ s2._prefixKey b :=
    prefixKey_disjoint s1 s2 h1 h2 hc1 hc2 hne
  have hstate : ∀ k2,
      applyCalls emptyBackend (s1.mset pairs) (s2._prefixKey k2) = none := by
    intro k2
    rw [applyCalls_of_ne]
    · rfl
    · intro c hc
      obtain ⟨kv, hkv, e, rfl⟩ := mset_shape s1 pairs c hc
      exact ⟨s1._prefixKey kv.1, kv.2, e, rfl, hdisj kv.1 k2⟩
  constructor
  · simp only [RedisStore.mget, stateMget, List.map_map]
    refine List.map_congr_left (fun k _ => ?_)
    show (fun value =>
        match value with
        | none => none
        | some v => some (bufferFromBinary v))
      ((applyCalls emptyBackend (s1.mset pairs) (s2._prefixKey k)).map
        (fun v => v.1.map Char.ofNat)) = none
    rw [hstate k]
    rfl
  · intro calls yielded hy
    cases fuel with
    | zero => simp [RedisStore.yieldKeys, scanLoop] at hy
    | succ f =>
      have hfilter : (pairs.map (fun kv => s1._prefixKey kv.1)).filter
          (fun k => (s2.scanPattern pre).dropLast.isPrefixOf k) = [] := by
        rw [List.filter_eq_nil_iff]
        intro k hk
        obtain ⟨kv, hkv, rfl⟩ := List.mem_map.mp hk
        obtain ⟨mid, hmid⟩ := scanPattern_dropLast s2 pre h2
        rw [hmid]
        intro habs
        rw [List.isPrefixOf_iff_prefix] at habs
        have hpp : (s2.ns ++ js ":") <+: s1._prefixKey kv.1 :=
          List.IsPrefix.trans (List.prefix_append _ _) habs
        obtain ⟨t, ht⟩ := hpp
        rw [RedisStore._prefixKey, if_pos h1] at ht
        have hj : js ":" = [':'] := rfl
        rw [hj, List.append_assoc, List.append_assoc, List.singleton_append,
          List.singleton_append] at ht
        exact hne ((colon_sep_inj hc2 hc1 ht).1).symm
      have hrun : s2.yieldKeys
          (stateScanOnce (pairs.map (fun kv => s1._prefixKey kv.1))) pre (f + 1) =
          some ([BackendCall.scan (js "0") (s2.scanPattern pre) 100], []) := by
        simp [RedisStore.yieldKeys, scanLoop, stateScanOnce, hfilter]
      rw [hrun] at hy
      simp only [Option.some.injEq, Prod.mk.injEq] at hy
      exact hy.2.symm

/-- C2 counterexample: with namespaces `"a"` and `"a:b"` (distinct, both
non-empty) over one backend, a write of logical key `"b:x"` through the first
store is observed by the second store's `mget` of logical key `"x"`: the
physical keys collide at `"a:b:x"`. -/
theorem namespace_isolation_counterexample :
    js "a" ≠ js "a:b" ∧
    (RedisStore.mget { client := 0, ttl := none, ns := js "a:b" }
      (stateMget (applyCalls emptyBackend
        (RedisStore.mset { client := 0, ttl := none, ns := js "a" }
          [(js "b:x", [1])])))
      [js "x"]).2 = [some [1]] := by
  refine ⟨by decide, by decide⟩

/-- Witness for C2's amended theorem at namespaces `"a"` and `"b"`. -/
theorem namespace_isolation_witness :
    (RedisStore.mget { client := 0, ttl := none, ns := js "b" }
      (stateMget (applyCalls emptyBackend
        (RedisStore.mset { client := 0, ttl := none, ns := js "a" }
          [(js "k", [1])])))
      [js "k"]).2 = [none] :=
  Eq.trans
    ((namespace_isolation { client := 0, ttl := none, ns := js "a" }
      { client := 0, ttl := none, ns := js "b" } (by decide) (by decide)
      (by decide) (by decide) (by decide) [(js "k", [1])] [js "k"] none 1).1)
    (by decide)
